import Mathlib

/-!
Shallow embedding of `src/textgrid_parser.py` (TextGrid parser and phrase
locator for Montreal Forced Aligner output).

Modelling conventions:
* Python strings are `List Char`; the ASCII fragment of `str.lower`,
  `str.strip` and `str.split` is modelled character by character.
* A raised Python exception (`ValueError` from `float`, `IndexError` from
  list indexing) is the `PyResult.exn` constructor; normal return is
  `PyResult.ok`.
* `print` calls are modelled as boolean flags in the result where a claim
  mentions them (the missing-tier warning).
* File/decoder I/O in `detect_encoding` is modelled by an oracle
  `decode : Encoding → Option (List Char)`: `none` is a
  `UnicodeDecodeError`, `some c` is the decoded file content.
* The two concrete regular expressions of the source are modelled as
  direct scanners.  Both are deterministic: in
  `xmin = ([\d.]+)\s+xmax = ([\d.]+)\s+text = "([^\x22]*)"` every greedy
  class is followed by a character it cannot match (digits/dots vs
  whitespace vs literal letters, non-quote vs quote), so greedy matching
  is maximal munch and no backtracking can succeed where maximal munch
  fails; `name = "words".*?(?=item \[2\])` with `re.DOTALL` matches at the
  leftmost position of `name = "words"` that is followed (at or after its
  end) by an occurrence of `item [2]`, and the lazy `.*?` stops at the
  earliest such occurrence.
-/

set_option maxRecDepth 100000

namespace TextGrid

/-- Result of running a Python function: a value, or a raised exception. -/
inductive PyResult (α : Type) where
  | ok : α → PyResult α
  | exn : PyResult α
deriving DecidableEq, Repr

/-- ASCII whitespace recognised by Python's `str.strip` / `str.split` / `\s`. -/
def isPySpace (c : Char) : Bool :=
  c = ' ' || c = '\t' || c = '\n' || c = '\r' || c = '\x0b' || c = '\x0c'

/-- The character class `[\d.]` of the interval pattern. -/
def isDigitDot (c : Char) : Bool :=
  c.isDigit || c = '.'

/-- ASCII fragment of Python `str.lower`, one character. -/
def pyLowerChar (c : Char) : Char :=
  if 'A' ≤ c ∧ c ≤ 'Z' then Char.ofNat (c.toNat + 32) else c

/-- Python `s.lower()`. -/
def pyLower (s : List Char) : List Char :=
  s.map pyLowerChar

/-- Python `s.strip()`: drop whitespace from both ends. -/
def pyStrip (s : List Char) : List Char :=
  ((s.dropWhile isPySpace).reverse.dropWhile isPySpace).reverse

/-- Worker for `pySplit`, with explicit fuel: skip a whitespace
character, or cut the maximal non-whitespace run as the next token.
Each step consumes at least one character, so fuel `s.length` (used in
`pySplit`) never runs out; `pySplitGo_fuel` makes this exact. -/
def pySplitGo : ℕ → List Char → List (List Char)
  | 0, _ => []
  | _, [] => []
  | fuel + 1, c :: t =>
    if isPySpace c then
      pySplitGo fuel t
    else
      (c :: t.takeWhile (fun x => ¬ isPySpace x)) ::
        pySplitGo fuel (t.dropWhile (fun x => ¬ isPySpace x))

/-- Python `s.split()`: split on runs of whitespace, no empty tokens. -/
def pySplit (s : List Char) : List (List Char) :=
  pySplitGo s.length s

/-- `phrase.lower().strip().split()` from `find_phrase_timestamps`. -/
def pyTokenize (phrase : List Char) : List (List Char) :=
  pySplit (pyStrip (pyLower phrase))

/-- `'File type = "ooTextFile"'`, the header marker checked by `detect_encoding`. -/
def fileTypeLit : List Char := "File type = \"ooTextFile\"".data

/-- `'name = "words"'`, the word-tier marker. -/
def nameWordsLit : List Char := "name = \"words\"".data

/-- `'item [2]'`, the next-tier marker required by the tier-isolation regex. -/
def item2Lit : List Char := "item [2]".data

/-- `'spn'`, the reserved unintelligible-speech marker. -/
def spnLit : List Char := "spn".data

/-- `pat` occurs in `s` at position `p`. -/
def occursAtB (pat s : List Char) (p : ℕ) : Bool :=
  decide ((s.drop p).take pat.length = pat)

/-- `pat` occurs somewhere in `s` (Python `pat in s`). -/
def hasSubstr (pat s : List Char) : Bool :=
  (List.range (s.length + 1)).any (occursAtB pat s)

/-- `pat` occurs in `s` at some position `≥ k`. -/
def occursFrom (pat s : List Char) (k : ℕ) : Bool :=
  (List.range (s.length + 1)).any (fun q => decide (k ≤ q) && occursAtB pat s q)

/-- The tier-isolation search
`re.search(r'name = "words".*?(?=item \[2\])', content, re.DOTALL)`:
the matched text starts at the leftmost occurrence of `name = "words"`
that has an occurrence of `item [2]` at or after its end, and extends to
the earliest such occurrence (excluded, as it sits in a lookahead). -/
def searchWordTier (content : List Char) : Option (List Char) :=
  match (List.range (content.length + 1)).find? (fun p =>
      occursAtB nameWordsLit content p &&
        occursFrom item2Lit content (p + nameWordsLit.length)) with
  | none => none
  | some p =>
    match (List.range (content.length + 1)).find? (fun q =>
        decide (p + nameWordsLit.length ≤ q) && occursAtB item2Lit content q) with
    | none => none
    | some q => some ((content.drop p).take (q - p))

/-- Consume the literal `lit` from the front of `s`. -/
def stripLit : List Char → List Char → Option (List Char)
  | [], s => some s
  | _ :: _, [] => none
  | a :: as, b :: bs => if a = b then stripLit as bs else none

def xminLit : List Char := "xmin = ".data

def xmaxLit : List Char := "xmax = ".data

def textEqLit : List Char := "text = \"".data

/-- Consume a non-empty maximal run of characters satisfying `p` (the
greedy `X+` of the pattern, where what follows can never match `X`):
return the run and the rest. -/
def eatRun (p : Char → Bool) (s : List Char) : Option (List Char × List Char) :=
  if s.takeWhile p = [] then none else some (s.takeWhile p, s.dropWhile p)

/-- Match the interval pattern
`xmin = ([\d.]+)\s+xmax = ([\d.]+)\s+text = "([^\x22]*)"` at the head of
`s`; on success return the three groups and the remaining input after the
match.  All greedy classes are maximal munch, see the file header. -/
def matchIntervalAt (s : List Char) :
    Option ((List Char × List Char × List Char) × List Char) :=
  (stripLit xminLit s).bind fun s1 =>
  (eatRun isDigitDot s1).bind fun g1r =>
  (eatRun isPySpace g1r.2).bind fun w1r =>
  (stripLit xmaxLit w1r.2).bind fun s4 =>
  (eatRun isDigitDot s4).bind fun g2r =>
  (eatRun isPySpace g2r.2).bind fun w2r =>
  (stripLit textEqLit w2r.2).bind fun s7 =>
  (stripLit ['"'] (s7.dropWhile (fun c => c ≠ '"'))).bind fun s9 =>
  some ((g1r.1, g2r.1, s7.takeWhile (fun c => c ≠ '"')), s9)

/-- `re.findall` scan for the interval pattern, with explicit fuel: try a
match at the current position; on success continue after the match, on
failure advance one character.  Each successful match consumes at least
the seven characters of `xmin = `, so fuel `s.length` (used in
`findIntervals`) never runs out; `findIntervalsGo_fuel` makes this exact. -/
def findIntervalsGo : ℕ → List Char → List (List Char × List Char × List Char)
  | 0, _ => []
  | fuel + 1, s =>
    match matchIntervalAt s with
    | some (g, r) => g :: findIntervalsGo fuel r
    | none =>
      match s with
      | [] => []
      | _ :: t => findIntervalsGo fuel t

/-- `interval_pattern.findall(word_tier)`. -/
def findIntervals (s : List Char) : List (List Char × List Char × List Char) :=
  findIntervalsGo s.length s

/-- Digit string to number, e.g. `['4','2'] ↦ 42`. -/
def natOfDigits (s : List Char) : ℕ :=
  s.foldl (fun a c => 10 * a + (c.toNat - 48)) 0

/-- Value of a valid float literal made of digits and at most one dot:
integer part plus fractional part, as the exact rational
`(ip * 10^k + fp) / 10^k` with `k` the number of fractional digits. -/
def ratOfDigitString (s : List Char) : ℚ :=
  let ip := s.takeWhile (fun c => c ≠ '.')
  let fp := (s.dropWhile (fun c => c ≠ '.')).drop 1
  mkRat (natOfDigits ip * 10 ^ fp.length + natOfDigits fp) (10 ^ fp.length)

/-- Python `float(s)`, modelled on strings drawn from digits and dots —
the only strings the parser ever passes to it, since they are captures of
`[\d.]+` (theorem for C10).  Such a string converts exactly when it has
at most one dot and at least one digit (`float('1.2.3')` and `float('.')`
raise `ValueError`; `float('1.')`, `float('.5')`, `float('42')` succeed). -/
def pyFloat (s : List Char) : Option ℚ :=
  if s.all isDigitDot ∧ s.count '.' ≤ 1 ∧ s.any Char.isDigit then
    some (ratOfDigitString s)
  else
    none

/-- One entry of the word list built by `parse_textgrid`
(`{'word': …, 'start': …, 'end': …}`; the `end` key is `stop` here since
`end` is a Lean keyword). -/
structure Word where
  word : List Char
  start : ℚ
  stop : ℚ
deriving DecidableEq, Repr

/-- The filtering loop of `parse_textgrid`: strip each label, skip empty
labels and `'spn'`, convert the numeric fields of retained intervals
(a failed conversion raises and aborts the whole loop). -/
def buildWords : List (List Char × List Char × List Char) → PyResult (List Word)
  | [] => .ok []
  | (a, b, t) :: rest =>
    let t' := pyStrip t
    if t' = [] ∨ t' = spnLit then
      buildWords rest
    else
      match pyFloat a, pyFloat b with
      | some x, some y =>
        match buildWords rest with
        | .ok ws => .ok (⟨t', x, y⟩ :: ws)
        | .exn => .exn
      | _, _ => .exn

/-- Result of `parse_textgrid`: the word list, and whether the
"Could not find word tier" warning was printed. -/
structure ParseOutput where
  words : List Word
  warnedNoTier : Bool
deriving DecidableEq, Repr

/-- `parse_textgrid`, from the decoded file content onward: isolate the
word tier, extract intervals, filter and convert. -/
def parse_textgrid_content (content : List Char) : PyResult ParseOutput :=
  match searchWordTier content with
  | none => .ok ⟨[], true⟩
  | some tier =>
    match buildWords (findIntervals tier) with
    | .ok ws => .ok ⟨ws, false⟩
    | .exn => .exn

/-- The dict returned by a successful `find_phrase_timestamps`. -/
structure PhraseMatch where
  phrase : List Char
  start : ℚ
  stop : ℚ
deriving DecidableEq, Repr

/-- Python list indexing `ws[i]` with negative-index wraparound; `none`
models an `IndexError`. -/
def pyGet (ws : List Word) (i : ℤ) : Option Word :=
  if 0 ≤ i then ws[i.toNat]?
  else if 0 ≤ i + ws.length then ws[(i + ws.length).toNat]? else none

/-- `[w['word'].lower() for w in words[i:i+n]]`. -/
def windowAt (ws : List Word) (i n : ℕ) : List (List Char) :=
  ((ws.drop i).take n).map (fun w => pyLower w.word)

/-- The scanning loop of `find_phrase_timestamps`: `i` is the current
index, the second argument the number of iterations left (Python's
`range(len(words) - n + 1)`). -/
def findGo (ws : List Word) (phrase : List Char) (pw : List (List Char))
    (n : ℕ) : ℕ → ℕ → PyResult (Option PhraseMatch)
  | _, 0 => .ok none
  | i, rem + 1 =>
    if windowAt ws i n = pw then
      match pyGet ws i, pyGet ws ((i : ℤ) + n - 1) with
      | some w1, some w2 => .ok (some ⟨phrase, w1.start, w2.stop⟩)
      | _, _ => .exn
    else
      findGo ws phrase pw n (i + 1) rem

/-- `find_phrase_timestamps(words, phrase)`.  Note the source has no
guard for an empty token list: the loop still runs `len(words) + 1`
iterations and the empty window matches immediately. -/
def find_phrase_timestamps (ws : List Word) (phrase : List Char) :
    PyResult (Option PhraseMatch) :=
  let pw := pyTokenize phrase
  let n := pw.length
  findGo ws phrase pw n 0 (((ws.length : ℤ) - n + 1).toNat)

/-- One entry of the list returned by `find_all_phrases`. -/
structure PhraseResult where
  phrase : List Char
  start : Option ℚ
  stop : Option ℚ
  found : Bool
deriving DecidableEq, Repr

/-- The per-phrase result `find_all_phrases` appends for one phrase. -/
def phraseResultOf (ws : List Word) (p : List Char) : PhraseResult :=
  match find_phrase_timestamps ws p with
  | .ok (some m) => ⟨p, some m.start, some m.stop, true⟩
  | _ => ⟨p, none, none, false⟩

/-- `find_all_phrases(words, phrases)`: one single-phrase lookup per
phrase, results in input order; an exception in a lookup propagates. -/
def find_all_phrases (ws : List Word) : List (List Char) → PyResult (List PhraseResult)
  | [] => .ok []
  | p :: rest =>
    match find_phrase_timestamps ws p with
    | .exn => .exn
    | .ok m =>
      match find_all_phrases ws rest with
      | .ok rs =>
        .ok ((match m with
          | some mm => (⟨p, some mm.start, some mm.stop, true⟩ : PhraseResult)
          | none => ⟨p, none, none, false⟩) :: rs)
      | .exn => .exn

/-- The four candidate encodings tried by `detect_encoding`. -/
inductive Encoding where
  | utf16 | utf8 | latin1 | cp1252
deriving DecidableEq, Repr

/-- `encodings = ['utf-16', 'utf-8', 'latin-1', 'cp1252']`. -/
def encodingOrder : List Encoding :=
  [.utf16, .utf8, .latin1, .cp1252]

/-- Both structural markers checked inside `detect_encoding`'s loop. -/
def hasMarkers (content : List Char) : Bool :=
  hasSubstr fileTypeLit content && hasSubstr nameWordsLit content

/-- One candidate is accepted when the file decodes under it without
error and the decoded text contains both markers. -/
def acceptsEncoding (decode : Encoding → Option (List Char)) (e : Encoding) : Bool :=
  match decode e with
  | some content => hasMarkers content
  | none => false

/-- The candidate loop of `detect_encoding`. -/
def detectGo (decode : Encoding → Option (List Char)) : List Encoding → Encoding
  | [] => .utf8
  | e :: rest => if acceptsEncoding decode e then e else detectGo decode rest

/-- `detect_encoding`, with file reading under a candidate encoding
modelled by the oracle `decode` (see the file header): first accepted
candidate in priority order, `utf-8` as fallback when none is. -/
def detect_encoding (decode : Encoding → Option (List Char)) : Encoding :=
  detectGo decode encodingOrder

/-- The retention test of `parse_textgrid`'s loop: keep an interval
whose stripped label is non-empty and not the reserved `spn` marker. -/
def keepIv (iv : List Char × List Char × List Char) : Bool :=
  decide (¬ (pyStrip iv.2.2 = [] ∨ pyStrip iv.2.2 = spnLit))

/-- The `Word` a retained interval contributes, given that both its
numeric fields convert. -/
def wordOfIv (iv : List Char × List Char × List Char) : Word :=
  ⟨pyStrip iv.2.2, (pyFloat iv.1).getD 0, (pyFloat iv.2.1).getD 0⟩

/-! ### Concrete test data for witnesses and counterexamples -/

/-- Decoded content carrying both structural markers (C7 witness). -/
def demoContent : List Char :=
  "File type = \"ooTextFile\" name = \"words\"".data

/-- A decode oracle under which only utf-16 decodes (C7 witness). -/
def demoDecode : Encoding → Option (List Char)
  | .utf16 => some demoContent
  | _ => none

/-- A word tier whose only pattern match has a malformed `xmin` but an
empty label (C2 counterexample). -/
def badSkippedTier : List Char :=
  "name = \"words\" xmin = 1..2 xmax = 3 text = \"\" ".data

/-- A word tier with a retained interval whose `xmin` fails float
conversion (C2 amended witness). -/
def badKeptTier : List Char :=
  "name = \"words\" xmin = 1..2 xmax = 3 text = \"oui\" ".data

/-- A word tier interleaving an empty-label interval and an `spn`
interval with real words (C3 witness, Scenario C of the spec). -/
def scenarioCTier : List Char :=
  ("name = \"words\" xmin = 0.1 xmax = 0.5 text = \"\" " ++
   "xmin = 0.5 xmax = 0.9 text = \"oui\" " ++
   "xmin = 0.9 xmax = 1.1 text = \"spn\" " ++
   "xmin = 1.1 xmax = 1.5 text = \"va\" ").data

/-- A small word list for the locator witnesses. -/
def demoWords : List Word :=
  [⟨"deux".data, 1, 2⟩, ⟨"oui".data, 3, 4⟩]

/-- A word list in which `deux` occurs twice (C4 witness, Scenario D
of the spec). -/
def demoDupWords : List Word :=
  [⟨"deux".data, 0, 1⟩, ⟨"deux".data, 3, 4⟩]

/-! ### Helper lemmas -/

lemma all_takeWhile {α : Type} (p : α → Bool) (l : List α) :
    (l.takeWhile p).all p = true := by
  induction l with
  | nil => rfl
  | cons a t ih =>
    by_cases h : p a = true
    · simp [List.takeWhile_cons, h, ih]
    · simp [List.takeWhile_cons, h]

lemma stripLit_length {lit s r : List Char} (h : stripLit lit s = some r) :
    r.length + lit.length = s.length := by
  induction lit generalizing s with
  | nil =>
    simp only [stripLit, Option.some.injEq] at h
    simp [h]
  | cons a as ih =>
    cases s with
    | nil => simp [stripLit] at h
    | cons b bs =>
      simp only [stripLit] at h
      split at h
      · have := ih h
        simp only [List.length_cons]
        omega
      · exact absurd h (by simp)

lemma eatRun_eq_some {p : Char → Bool} {s : List Char}
    {gr : List Char × List Char} (h : eatRun p s = some gr) :
    gr.1 = s.takeWhile p ∧ gr.2 = s.dropWhile p ∧ gr.1 ≠ [] := by
  unfold eatRun at h
  split at h
  · cases h
  · rename_i hne
    injection h with h'
    subst h'
    exact ⟨rfl, rfl, hne⟩

/-- Decomposition of a successful interval match: the two numeric groups
are non-empty strings of digits and dots, and the match consumes at
least 15 characters of the input. -/
lemma matchIntervalAt_eq_some {s : List Char}
    {g : List Char × List Char × List Char} {r : List Char}
    (h : matchIntervalAt s = some (g, r)) :
    g.1 ≠ [] ∧ g.2.1 ≠ [] ∧ g.1.all isDigitDot = true ∧
      g.2.1.all isDigitDot = true ∧ r.length + 15 ≤ s.length := by
  simp only [matchIntervalAt, Option.bind_eq_some] at h
  obtain ⟨s1, hs1, h⟩ := h
  obtain ⟨g1r, hg1, h⟩ := h
  obtain ⟨w1r, hw1, h⟩ := h
  obtain ⟨s4, hs4, h⟩ := h
  obtain ⟨g2r, hg2, h⟩ := h
  obtain ⟨w2r, hw2, h⟩ := h
  obtain ⟨s7, hs7, h⟩ := h
  obtain ⟨s9, hs9, h⟩ := h
  injection h with h'
  rw [Prod.mk.injEq] at h'
  obtain ⟨hg, hr⟩ := h'
  subst hg
  subst hr
  obtain ⟨hg1a, hg1b, hg1ne⟩ := eatRun_eq_some hg1
  obtain ⟨hw1a, hw1b, hw1ne⟩ := eatRun_eq_some hw1
  obtain ⟨hg2a, hg2b, hg2ne⟩ := eatRun_eq_some hg2
  obtain ⟨hw2a, hw2b, hw2ne⟩ := eatRun_eq_some hw2
  refine ⟨hg1ne, hg2ne, ?_, ?_, ?_⟩
  · rw [hg1a]; exact all_takeWhile _ _
  · rw [hg2a]; exact all_takeWhile _ _
  · have l1 := stripLit_length hs1
    have l4 := stripLit_length hs4
    have l7 := stripLit_length hs7
    have l9 := stripLit_length hs9
    have d1 : g1r.2.length ≤ s1.length := by
      rw [hg1b]; exact (List.dropWhile_sublist _).length_le
    have d2 : w1r.2.length ≤ g1r.2.length := by
      rw [hw1b]; exact (List.dropWhile_sublist _).length_le
    have d3 : g2r.2.length ≤ s4.length := by
      rw [hg2b]; exact (List.dropWhile_sublist _).length_le
    have d4 : w2r.2.length ≤ g2r.2.length := by
      rw [hw2b]; exact (List.dropWhile_sublist _).length_le
    have d5 : (s7.dropWhile (fun c => c ≠ '"')).length ≤ s7.length :=
      (List.dropWhile_sublist _).length_le
    have e1 : xminLit.length = 7 := rfl
    have e2 : xmaxLit.length = 7 := rfl
    have e3 : textEqLit.length = 8 := rfl
    have e4 : (['"'] : List Char).length = 1 := rfl
    omega

lemma matchIntervalAt_length {s : List Char}
    {g : List Char × List Char × List Char} {r : List Char}
    (h : matchIntervalAt s = some (g, r)) : r.length < s.length := by
  have := (matchIntervalAt_eq_some h).2.2.2.2
  omega

lemma findIntervalsGo_nil (f : ℕ) : findIntervalsGo f [] = [] := by
  cases f <;> rfl

/-- Fuel above the input length is enough for the findall scan: any two
sufficient fuels agree, so `findIntervals`' choice of `s.length` is the
scan's limit behaviour. -/
lemma findIntervalsGo_fuel :
    ∀ f1 f2 (s : List Char), s.length ≤ f1 → s.length ≤ f2 →
      findIntervalsGo f1 s = findIntervalsGo f2 s := by
  have go_nil := findIntervalsGo_nil
  intro f1
  induction f1 with
  | zero =>
    intro f2 s h1 _
    have : s = [] := by
      cases s
      · rfl
      · simp at h1
    rw [this, go_nil, go_nil]
  | succ f1 ih =>
    intro f2 s h1 h2
    cases s with
    | nil => rw [go_nil, go_nil]
    | cons c t =>
      cases f2 with
      | zero => simp at h2
      | succ f2 =>
        simp only [findIntervalsGo]
        cases hm : matchIntervalAt (c :: t) with
        | some gr =>
          obtain ⟨g, r⟩ := gr
          have hr := matchIntervalAt_length hm
          simp only [List.length_cons] at h1 h2 hr
          exact congrArg (fun l => g :: l) (ih f2 r (by omega) (by omega))
        | none =>
          simp only [List.length_cons] at h1 h2
          exact ih f2 t (by omega) (by omega)

/-- Fuel above the input length is enough for the split scan: any two
sufficient fuels agree, so `pySplit`'s choice of `s.length` is the
scan's limit behaviour. -/
lemma pySplitGo_fuel :
    ∀ f1 f2 (s : List Char), s.length ≤ f1 → s.length ≤ f2 →
      pySplitGo f1 s = pySplitGo f2 s := by
  have go_nil : ∀ f, pySplitGo f [] = [] := by
    intro f; cases f <;> rfl
  intro f1
  induction f1 with
  | zero =>
    intro f2 s h1 _
    have : s = [] := by
      cases s
      · rfl
      · simp at h1
    rw [this, go_nil, go_nil]
  | succ f1 ih =>
    intro f2 s h1 h2
    cases s with
    | nil => rw [go_nil, go_nil]
    | cons c t =>
      cases f2 with
      | zero => simp at h2
      | succ f2 =>
        simp only [pySplitGo, List.length_cons] at h1 h2 ⊢
        have hd : (t.dropWhile (fun x => ¬ isPySpace x)).length ≤ t.length :=
          (List.dropWhile_sublist _).length_le
        by_cases hc : isPySpace c = true
        · rw [if_pos hc, if_pos hc]
          exact ih f2 t (by omega) (by omega)
        · rw [if_neg hc, if_neg hc]
          rw [ih f2 (t.dropWhile (fun x => ¬ isPySpace x)) (by omega) (by omega)]

lemma pyGet_natCast (ws : List Word) (k : ℕ) : pyGet ws (k : ℤ) = ws[k]? := by
  simp [pyGet]

lemma pyGet_neg_one (ws : List Word) (h : 1 ≤ ws.length) :
    pyGet ws (-1) = ws[ws.length - 1]? := by
  simp only [pyGet]
  rw [if_neg (by norm_num), if_pos (by omega)]
  congr 1
  omega

lemma windowAt_length_eq {ws : List Word} {i n : ℕ} {pw : List (List Char)}
    (h1 : 1 ≤ n) (hn : n = pw.length) (hw : windowAt ws i n = pw) :
    i + n ≤ ws.length := by
  have hl := congrArg List.length hw
  simp only [windowAt, List.length_map, List.length_take, List.length_drop] at hl
  rw [Nat.min_def] at hl
  split at hl <;> omega

/-! ### C1 -/

/-- C1 (counterexample): an empty phrase tokenizes to zero tokens, yet
`find_phrase_timestamps` does not return `None`: on a non-empty word
list it returns a match spanning the whole list, and on the empty word
list it raises an `IndexError` (`words[0]` on an empty list). -/
theorem find_phrase_zero_tokens_cex :
    (pyTokenize []).length = 0 ∧
      find_phrase_timestamps [⟨['a'], 0, 1⟩] [] = .ok (some ⟨[], 0, 1⟩) ∧
      find_phrase_timestamps [] [] = .exn := by
  decide

/-- C1 (amended): if the phrase tokenizes to strictly more tokens than
there are words, `find_phrase_timestamps` returns `None` without
raising, for every word list including the empty one (the loop range
`len(words) - n + 1` is empty).  The original `n == 0` part of the
claim fails: the source has no such guard (see the counterexample). -/
theorem find_phrase_too_many_tokens (ws : List Word) (phrase : List Char)
    (h : ws.length < (pyTokenize phrase).length) :
    find_phrase_timestamps ws phrase = .ok none := by
  have h0 : (((ws.length : ℤ) - (pyTokenize phrase).length + 1)).toNat = 0 := by
    omega
  simp only [find_phrase_timestamps]
  rw [h0]
  rfl

/-- C1 (witness): the amended theorem at a two-token phrase and the
empty word list. -/
theorem find_phrase_too_many_tokens_witness :
    ([] : List Word).length < (pyTokenize ['h', 'i']).length ∧
      find_phrase_timestamps [] ['h', 'i'] = .ok none :=
  ⟨by decide, find_phrase_too_many_tokens [] ['h', 'i'] (by decide)⟩

/-! ### C6 -/

/-- C6: when the word-tier marker `name = "words"` does not occur in the
file content, `parse_textgrid` returns an empty word list together with
the "could not find word tier" warning, and raises no exception. -/
theorem parse_no_tier_marker (content : List Char)
    (h : hasSubstr nameWordsLit content = false) :
    parse_textgrid_content content = .ok ⟨[], true⟩ := by
  have hall := List.any_eq_false.mp h
  have hfind : (List.range (content.length + 1)).find? (fun p =>
      occursAtB nameWordsLit content p &&
        occursFrom item2Lit content (p + nameWordsLit.length)) = none := by
    rw [List.find?_eq_none]
    intro p hp
    have := hall p hp
    simp only [Bool.and_eq_true, not_and]
    intro hocc
    exact absurd hocc this
  simp [parse_textgrid_content, searchWordTier, hfind]

/-- C6 (witness): a content with no marker at all. -/
theorem parse_no_tier_marker_witness :
    hasSubstr nameWordsLit ['h', 'i'] = false ∧
      parse_textgrid_content ['h', 'i'] = .ok ⟨[], true⟩ :=
  ⟨by decide, parse_no_tier_marker ['h', 'i'] (by decide)⟩

/-! ### C9 -/

/-- C9: even when the word-tier marker is present (possibly with valid
intervals after it), if `item [2]` never occurs at or after the end of
an occurrence of the marker, the tier-isolation search fails and
`parse_textgrid` returns the empty word list with the warning: the
regex demands the literal next-tier marker `item [2]`, not merely end
of file. -/
theorem parse_no_item2_after_marker (content : List Char)
    (h : ∀ p, p < content.length + 1 → occursAtB nameWordsLit content p = true →
        occursFrom item2Lit content (p + nameWordsLit.length) = false) :
    parse_textgrid_content content = .ok ⟨[], true⟩ := by
  have hfind : (List.range (content.length + 1)).find? (fun p =>
      occursAtB nameWordsLit content p &&
        occursFrom item2Lit content (p + nameWordsLit.length)) = none := by
    rw [List.find?_eq_none]
    intro p hp
    rw [List.mem_range] at hp
    cases hc : occursAtB nameWordsLit content p
    · simp
    · simp [h p hp hc]
  simp [parse_textgrid_content, searchWordTier, hfind]

/-- C9 (witness): a content whose word tier is present and contains a
valid interval, but with no `item [2]` marker anywhere. -/
theorem parse_no_item2_after_marker_witness :
    parse_textgrid_content
        "name = \"words\" xmin = 1.0 xmax = 2.0 text = \"oui\"".data =
      .ok ⟨[], true⟩ :=
  parse_no_item2_after_marker _ (by decide)

lemma buildWords_ok (l : List (List Char × List Char × List Char))
    (h : ∀ iv ∈ l, keepIv iv = true →
        (pyFloat iv.1).isSome = true ∧ (pyFloat iv.2.1).isSome = true) :
    buildWords l = .ok ((l.filter keepIv).map wordOfIv) := by
  induction l with
  | nil => rfl
  | cons iv rest ih =>
    obtain ⟨a, b, t⟩ := iv
    have hrest := ih (fun iv' hiv' => h iv' (List.mem_cons_of_mem _ hiv'))
    by_cases hk : pyStrip t = [] ∨ pyStrip t = spnLit
    · have hkeep : keepIv (a, b, t) = false := by simp [keepIv, hk]
      simp only [buildWords]
      rw [if_pos hk, hrest, List.filter_cons, hkeep]
      simp
    · have hkeep : keepIv (a, b, t) = true := by simp_all [keepIv]
      obtain ⟨ha, hb⟩ := h (a, b, t) (List.mem_cons_self _ _) hkeep
      obtain ⟨x, hx⟩ := Option.isSome_iff_exists.mp ha
      obtain ⟨y, hy⟩ := Option.isSome_iff_exists.mp hb
      simp only [buildWords]
      rw [if_neg hk, hx, hy, hrest, List.filter_cons, hkeep]
      simp [wordOfIv, hx, hy]

lemma buildWords_exn (l : List (List Char × List Char × List Char))
    (a b t : List Char) (hmem : (a, b, t) ∈ l) (hk : keepIv (a, b, t) = true)
    (hbad : pyFloat a = none ∨ pyFloat b = none) :
    buildWords l = .exn := by
  have hk' : ¬ (pyStrip t = [] ∨ pyStrip t = spnLit) := by
    simpa [keepIv] using hk
  induction l with
  | nil => cases hmem
  | cons hd rest ih =>
    obtain ⟨a', b', t'⟩ := hd
    rcases List.mem_cons.mp hmem with heq | hmem'
    · rw [Prod.mk.injEq, Prod.mk.injEq] at heq
      obtain ⟨rfl, rfl, rfl⟩ := heq
      simp only [buildWords]
      rw [if_neg hk']
      cases hA : pyFloat a <;> cases hB : pyFloat b <;> simp_all
    · have htail := ih hmem'
      simp only [buildWords]
      by_cases hk2 : pyStrip t' = [] ∨ pyStrip t' = spnLit
      · rw [if_pos hk2]
        exact htail
      · rw [if_neg hk2, htail]
        cases pyFloat a' <;> cases pyFloat b' <;> rfl

/-! ### C2 -/

/-- C2 (counterexample): a word tier can contain an interval matching
the structural pattern whose `xmin` fails float conversion while the
parse still succeeds, because the label filter runs before the numeric
conversion: here the malformed interval has an empty label, is skipped,
and `parse_textgrid` returns an empty word list instead of raising. -/
theorem parse_malformed_skipped_interval_cex :
    searchWordTier (badSkippedTier ++ item2Lit) = some badSkippedTier ∧
      ("1..2".data, "3".data, "".data) ∈ findIntervals badSkippedTier ∧
      pyFloat "1..2".data = none ∧
      parse_textgrid_content (badSkippedTier ++ item2Lit) = .ok ⟨[], false⟩ := by
  decide

/-- C2 (amended): if the word tier contains an interval matching the
structural pattern that is *retained* (stripped label non-empty and not
`spn`) and whose `xmin` or `xmax` field fails float conversion, then
`parse_textgrid` raises the conversion error and produces no partial
result. -/
theorem parse_malformed_retained_interval_raises
    (content tier a b t : List Char)
    (hs : searchWordTier content = some tier)
    (hmem : (a, b, t) ∈ findIntervals tier)
    (hkeep : keepIv (a, b, t) = true)
    (hbad : pyFloat a = none ∨ pyFloat b = none) :
    parse_textgrid_content content = .exn := by
  have hb := buildWords_exn (findIntervals tier) a b t hmem hkeep hbad
  simp [parse_textgrid_content, hs, hb]

/-- C2 (witness): a tier whose single interval is retained and has a
malformed `xmin` makes the whole parse raise. -/
theorem parse_malformed_retained_interval_raises_witness :
    parse_textgrid_content (badKeptTier ++ item2Lit) = .exn :=
  parse_malformed_retained_interval_raises (badKeptTier ++ item2Lit)
    badKeptTier "1..2".data "3".data "oui".data
    (by decide) (by decide) (by decide) (Or.inl (by decide))

/-! ### C3 -/

/-- C3: whenever the word tier is isolated and every retained interval's
numeric fields convert, `parse_textgrid` returns exactly the intervals
whose whitespace-stripped label is non-empty and not `spn`, with labels
stripped, in original order — the filter of the extracted intervals,
mapped to words — and the length of the result equals the number of
retained intervals. -/
theorem parse_returns_filtered_intervals (content tier : List Char)
    (hs : searchWordTier content = some tier)
    (hconv : ∀ iv ∈ findIntervals tier, keepIv iv = true →
        (pyFloat iv.1).isSome = true ∧ (pyFloat iv.2.1).isSome = true) :
    parse_textgrid_content content =
        .ok ⟨((findIntervals tier).filter keepIv).map wordOfIv, false⟩ ∧
      (((findIntervals tier).filter keepIv).map wordOfIv).length =
        ((findIntervals tier).filter keepIv).length := by
  refine ⟨?_, by simp⟩
  have hb := buildWords_ok _ hconv
  simp [parse_textgrid_content, hs, hb]

/-- C3 (witness): Scenario C — a tier with an empty-label interval and
an `spn` interval interleaved with real words; both are excluded. -/
theorem parse_returns_filtered_intervals_witness :
    parse_textgrid_content (scenarioCTier ++ item2Lit) =
        .ok ⟨((findIntervals scenarioCTier).filter keepIv).map wordOfIv, false⟩ ∧
      (((findIntervals scenarioCTier).filter keepIv).map wordOfIv).length =
        ((findIntervals scenarioCTier).filter keepIv).length :=
  parse_returns_filtered_intervals (scenarioCTier ++ item2Lit) scenarioCTier
    (by decide) (by decide)

/-! ### C10 -/

/-- C10: every interval triple the structural pattern extracts has
numeric field strings that are non-empty and drawn solely from the
digits 0-9 and the dot.  Hence an interval whose `xmin` or `xmax` field
contains any other character never matches the pattern — it is silently
excluded, raising nothing — and only digit/dot strings (which can still
fail float conversion, e.g. with two dots) ever reach `float()`. -/
theorem findIntervals_fields_digitDot (s a b t : List Char)
    (h : (a, b, t) ∈ findIntervals s) :
    a ≠ [] ∧ b ≠ [] ∧ a.all isDigitDot = true ∧ b.all isDigitDot = true := by
  suffices H : ∀ fuel s', (a, b, t) ∈ findIntervalsGo fuel s' →
      a ≠ [] ∧ b ≠ [] ∧ a.all isDigitDot = true ∧ b.all isDigitDot = true from
    H s.length s h
  intro fuel
  induction fuel with
  | zero =>
    intro s' h'
    simp [findIntervalsGo] at h'
  | succ fuel ih =>
    intro s' h'
    cases s' with
    | nil =>
      rw [findIntervalsGo_nil] at h'
      simp at h'
    | cons c t' =>
      simp only [findIntervalsGo] at h'
      cases hm : matchIntervalAt (c :: t') with
      | some gr =>
        obtain ⟨g, r⟩ := gr
        rw [hm] at h'
        replace h' : (a, b, t) ∈ g :: findIntervalsGo fuel r := h'
        rcases List.mem_cons.mp h' with heq | hmem
        -- the head triple comes from a successful pattern match
        · obtain ⟨h1, h2, h3, h4, _⟩ := matchIntervalAt_eq_some hm
          rw [← heq] at h1 h2 h3 h4
          exact ⟨h1, h2, h3, h4⟩
        · exact ih r hmem
      | none =>
        rw [hm] at h'
        replace h' : (a, b, t) ∈ findIntervalsGo fuel t' := h'
        exact ih t' h'

/-- C10 (witness): a concrete extracted triple has digit/dot fields. -/
theorem findIntervals_fields_digitDot_witness :
    (("1..2".data, "3".data, "".data) ∈
        findIntervals "xmin = 1..2 xmax = 3 text = \"\" ".data) ∧
      ("1..2".data ≠ [] ∧ "3".data ≠ [] ∧
        "1..2".data.all isDigitDot = true ∧ "3".data.all isDigitDot = true) :=
  ⟨by decide, findIntervals_fields_digitDot "xmin = 1..2 xmax = 3 text = \"\" ".data
    "1..2".data "3".data "".data (by decide)⟩

/-! ### C7 -/

/-- C7: `detect_encoding` returns the first encoding of the fixed
priority list `utf-16, utf-8, latin-1, cp1252` under which the file
decodes and contains both the file-type header token and the word-tier
name token, and falls back to `utf-8` when no candidate qualifies; in
particular a file whose utf-16 decoding contains both tokens is
detected as utf-16. -/
theorem detect_encoding_first_accepted (decode : Encoding → Option (List Char)) :
    detect_encoding decode =
        ((encodingOrder.find? (acceptsEncoding decode)).getD .utf8) ∧
      (∀ c, decode .utf16 = some c → hasMarkers c = true →
        detect_encoding decode = .utf16) := by
  have key : ∀ l, detectGo decode l =
      ((l.find? (acceptsEncoding decode)).getD .utf8) := by
    intro l
    induction l with
    | nil => rfl
    | cons e rest ih =>
      cases he : acceptsEncoding decode e
      · rw [List.find?_cons_of_neg _ (by simp [he])]
        simp [detectGo, he, ih]
      · rw [List.find?_cons_of_pos _ he]
        simp [detectGo, he]
  refine ⟨key encodingOrder, ?_⟩
  intro c hc hm
  have hacc : acceptsEncoding decode .utf16 = true := by
    simp [acceptsEncoding, hc, hm]
  simp [detect_encoding, encodingOrder, detectGo, hacc]

/-- C7 (witness): a file readable only as utf-16 and containing both
markers is detected as utf-16, not a fallback. -/
theorem detect_encoding_first_accepted_witness :
    detect_encoding demoDecode = .utf16 :=
  (detect_encoding_first_accepted demoDecode).2 demoContent rfl (by decide)

/-! ### Phrase locator loop lemmas -/

lemma findGo_first (ws : List Word) (phrase : List Char)
    (pw : List (List Char)) (n : ℕ) (hn : n = pw.length) (h1 : 1 ≤ n)
    (wj wl : Word) :
    ∀ rem i j, i ≤ j → j < i + rem →
      windowAt ws j n = pw →
      (∀ k, i ≤ k → k < j → ¬ windowAt ws k n = pw) →
      ws[j]? = some wj → ws[j + n - 1]? = some wl →
      findGo ws phrase pw n i rem = .ok (some ⟨phrase, wj.start, wl.stop⟩) := by
  intro rem
  induction rem with
  | zero =>
    intro i j hij hlt _ _ _ _
    omega
  | succ rem ih =>
    intro i j hij hlt hw hmin hgj hgl
    simp only [findGo]
    by_cases hcase : windowAt ws i n = pw
    · have hji : j = i := by
        rcases eq_or_lt_of_le hij with heq | h2
        · exact heq.symm
        · exact absurd hcase (hmin i le_rfl h2)
      subst hji
      rw [if_pos hcase]
      have e1 : pyGet ws (j : ℤ) = some wj := by
        rw [pyGet_natCast]; exact hgj
      have e2 : pyGet ws ((j : ℤ) + n - 1) = some wl := by
        have hcast : ((j : ℤ) + n - 1) = ((j + n - 1 : ℕ) : ℤ) := by omega
        rw [hcast, pyGet_natCast]; exact hgl
      rw [e1, e2]
    · have hij2 : i + 1 ≤ j := by
        rcases eq_or_lt_of_le hij with heq | h2
        · exact absurd (heq ▸ hw) hcase
        · omega
      rw [if_neg hcase]
      exact ih (i + 1) j hij2 (by omega) hw
        (fun k hk1 hk2 => hmin k (by omega) hk2) hgj hgl

lemma findGo_some_inv (ws : List Word) (phrase : List Char)
    (pw : List (List Char)) (n : ℕ) (hn : n = pw.length) (h1 : 1 ≤ n)
    (m : PhraseMatch) :
    ∀ rem i, findGo ws phrase pw n i rem = .ok (some m) →
      ∃ j wj wl, i ≤ j ∧ windowAt ws j n = pw ∧ ws[j]? = some wj ∧
        ws[j + n - 1]? = some wl ∧ m = ⟨phrase, wj.start, wl.stop⟩ := by
  intro rem
  induction rem with
  | zero =>
    intro i h
    simp [findGo] at h
  | succ rem ih =>
    intro i h
    simp only [findGo] at h
    by_cases hcase : windowAt ws i n = pw
    · rw [if_pos hcase] at h
      cases e1 : pyGet ws (i : ℤ) with
      | none =>
        rw [e1] at h
        cases e2 : pyGet ws ((i : ℤ) + n - 1) <;> rw [e2] at h <;> simp at h
      | some w1 =>
        rw [e1] at h
        cases e2 : pyGet ws ((i : ℤ) + n - 1) with
        | none =>
          rw [e2] at h
          simp at h
        | some w2 =>
          rw [e2] at h
          have hcast : ((i : ℤ) + n - 1) = ((i + n - 1 : ℕ) : ℤ) := by omega
          rw [pyGet_natCast] at e1
          rw [hcast, pyGet_natCast] at e2
          refine ⟨i, w1, w2, le_rfl, hcase, e1, e2, ?_⟩
          replace h : PyResult.ok (some (⟨phrase, w1.start, w2.stop⟩ : PhraseMatch))
              = PyResult.ok (some m) := h
          injection h with h'
          injection h' with h''
          exact h''.symm
    · rw [if_neg hcase] at h
      obtain ⟨j, wj, wl, hij, rest⟩ := ih (i + 1) h
      exact ⟨j, wj, wl, by omega, rest⟩

lemma findGo_ne_exn (ws : List Word) (phrase : List Char)
    (pw : List (List Char)) (n : ℕ) (hn : n = pw.length) (h1 : 1 ≤ n) :
    ∀ rem i, findGo ws phrase pw n i rem ≠ .exn := by
  intro rem
  induction rem with
  | zero =>
    intro i
    simp [findGo]
  | succ rem ih =>
    intro i
    simp only [findGo]
    by_cases hcase : windowAt ws i n = pw
    · rw [if_pos hcase]
      have hlen := windowAt_length_eq h1 hn hcase
      have hcast : ((i : ℤ) + n - 1) = ((i + n - 1 : ℕ) : ℤ) := by omega
      rw [pyGet_natCast, hcast, pyGet_natCast,
        List.getElem?_eq_getElem (show i < ws.length by omega),
        List.getElem?_eq_getElem (show i + n - 1 < ws.length by omega)]
      simp
    · rw [if_neg hcase]
      exact ih (i + 1)

/-- An empty token list on a non-empty word list: the first (empty)
window matches at once and the code returns a span from the first word's
start to the last word's end (`words[0]`, `words[-1]`). -/
lemma find_phrase_empty_tokens_nonempty (ws : List Word) (phrase : List Char)
    (hpw : pyTokenize phrase = []) (hws : 1 ≤ ws.length) :
    ∃ w0 wl, ws[0]? = some w0 ∧ ws[ws.length - 1]? = some wl ∧
      find_phrase_timestamps ws phrase = .ok (some ⟨phrase, w0.start, wl.stop⟩) := by
  obtain ⟨w0, hw0⟩ : ∃ w0, ws[0]? = some w0 :=
    ⟨_, List.getElem?_eq_getElem (by omega)⟩
  obtain ⟨wl, hwl⟩ : ∃ wl, ws[ws.length - 1]? = some wl :=
    ⟨_, List.getElem?_eq_getElem (by omega)⟩
  refine ⟨w0, wl, hw0, hwl, ?_⟩
  simp only [find_phrase_timestamps, hpw, List.length_nil]
  have hfuel : (((ws.length : ℤ) - ((0 : ℕ) : ℤ) + 1)).toNat = ws.length + 1 := by
    omega
  rw [hfuel]
  simp only [findGo]
  rw [if_pos (by simp [windowAt])]
  have e1 : pyGet ws ((0 : ℕ) : ℤ) = some w0 := by
    rw [pyGet_natCast]; exact hw0
  have e2 : pyGet ws (((0 : ℕ) : ℤ) + (0 : ℕ) - 1) = some wl := by
    rw [show (((0 : ℕ) : ℤ) + (0 : ℕ) - 1) = -1 by norm_num,
      pyGet_neg_one ws hws]
    exact hwl
  rw [e1, e2]

lemma find_phrase_ne_exn (ws : List Word) (phrase : List Char)
    (h : ws ≠ [] ∨ pyTokenize phrase ≠ []) :
    ∃ r, find_phrase_timestamps ws phrase = .ok r := by
  cases hpw : pyTokenize phrase with
  | nil =>
    have hws : ws ≠ [] := by
      rcases h with h | h
      · exact h
      · exact absurd hpw h
    have hlen : 1 ≤ ws.length := by
      cases ws
      · exact absurd rfl hws
      · simp
    obtain ⟨w0, wl, _, _, hfind⟩ :=
      find_phrase_empty_tokens_nonempty ws phrase hpw hlen
    exact ⟨_, hfind⟩
  | cons p0 pt =>
    have h1 : 1 ≤ (pyTokenize phrase).length := by rw [hpw]; simp
    cases hr : find_phrase_timestamps ws phrase with
    | ok r => exact ⟨r, rfl⟩
    | exn =>
      simp only [find_phrase_timestamps] at hr
      exact absurd hr (findGo_ne_exn ws phrase (pyTokenize phrase) _ rfl h1 _ _)

/-! ### C4 -/

/-- C4: for a phrase of at least one token, if the window at index `j`
equals the phrase tokens (both sides lowercased, exact list equality —
no partial-word or fuzzy matching) and no earlier window does, then
`find_phrase_timestamps` returns precisely the span of window `j`: the
earliest match wins, never a later one. -/
theorem find_phrase_first_match (ws : List Word) (phrase : List Char)
    (j : ℕ) (wj wl : Word)
    (h1 : 1 ≤ (pyTokenize phrase).length)
    (hj : windowAt ws j (pyTokenize phrase).length = pyTokenize phrase)
    (hmin : ∀ k, k < j →
      ¬ windowAt ws k (pyTokenize phrase).length = pyTokenize phrase)
    (hgj : ws[j]? = some wj)
    (hgl : ws[j + (pyTokenize phrase).length - 1]? = some wl) :
    find_phrase_timestamps ws phrase = .ok (some ⟨phrase, wj.start, wl.stop⟩) := by
  have hn := windowAt_length_eq h1 rfl hj
  simp only [find_phrase_timestamps]
  have hfuel : (((ws.length : ℤ) - (pyTokenize phrase).length + 1)).toNat
      = ws.length - (pyTokenize phrase).length + 1 := by omega
  rw [hfuel]
  exact findGo_first ws phrase (pyTokenize phrase) _ rfl h1 wj wl _ 0 j
    (Nat.zero_le j) (by omega) hj (fun k _ hk2 => hmin k hk2) hgj hgl

/-- C4 (witness): Scenario D — `deux` occurs at indices 0 and 1; the
match is the first occurrence's span. -/
theorem find_phrase_first_match_witness :
    find_phrase_timestamps demoDupWords "deux".data =
      .ok (some ⟨"deux".data, 0, 1⟩) :=
  find_phrase_first_match demoDupWords "deux".data 0
    ⟨"deux".data, 0, 1⟩ ⟨"deux".data, 0, 1⟩
    (by decide) (by decide) (fun k hk => absurd hk (Nat.not_lt_zero k))
    (by decide) (by decide)

/-! ### C5 -/

/-- C5: whenever `find_phrase_timestamps` returns a match for a phrase
of `n ≥ 1` tokens, the match was found at some window index `j`, the
returned `start` is the start time of the first matched word
(`words[j]`) and the returned `end` is the end time of the last matched
word (`words[j + n - 1]`). -/
theorem find_phrase_match_span (ws : List Word) (phrase : List Char)
    (m : PhraseMatch)
    (h1 : 1 ≤ (pyTokenize phrase).length)
    (hm : find_phrase_timestamps ws phrase = .ok (some m)) :
    ∃ j wj wl,
      windowAt ws j (pyTokenize phrase).length = pyTokenize phrase ∧
      ws[j]? = some wj ∧
      ws[j + (pyTokenize phrase).length - 1]? = some wl ∧
      m.phrase = phrase ∧ m.start = wj.start ∧ m.stop = wl.stop := by
  simp only [find_phrase_timestamps] at hm
  obtain ⟨j, wj, wl, _, hwin, hgj, hgl, heq⟩ :=
    findGo_some_inv ws phrase (pyTokenize phrase) _ rfl h1 m _ 0 hm
  exact ⟨j, wj, wl, hwin, hgj, hgl, by rw [heq], by rw [heq], by rw [heq]⟩

/-- C5 (witness): the returned span of a concrete match is the matched
word's own start and end. -/
theorem find_phrase_match_span_witness :
    ∃ j wj wl,
      windowAt demoWords j (pyTokenize "oui".data).length =
        pyTokenize "oui".data ∧
      demoWords[j]? = some wj ∧
      demoWords[j + (pyTokenize "oui".data).length - 1]? = some wl ∧
      (⟨"oui".data, 3, 4⟩ : PhraseMatch).phrase = "oui".data ∧
      (⟨"oui".data, 3, 4⟩ : PhraseMatch).start = wj.start ∧
      (⟨"oui".data, 3, 4⟩ : PhraseMatch).stop = wl.stop :=
  find_phrase_match_span demoWords "oui".data ⟨"oui".data, 3, 4⟩
    (by decide) (by decide)

/-! ### C8 -/

/-- C8 (counterexample): `find_all_phrases` does not always return one
result per phrase: on the empty word list with one phrase of zero
tokens, the single-phrase lookup raises `IndexError` and the batch call
propagates it instead of reporting a not-found result. -/
theorem find_all_phrases_raises_cex :
    pyTokenize [] = [] ∧ find_all_phrases [] [[]] = .exn := by
  decide

/-- C8 (amended): provided no phrase tokenizes to zero tokens while the
word list is empty (the one case where the single lookup raises),
`find_all_phrases` returns exactly one result per input phrase, in input
order, each the outcome of an independent single-phrase lookup; a failed
match is reported as `found := false` with null span, never an
exception. -/
theorem find_all_phrases_per_phrase (ws : List Word) (ps : List (List Char))
    (h : ∀ p ∈ ps, ws ≠ [] ∨ pyTokenize p ≠ []) :
    find_all_phrases ws ps = .ok (ps.map (phraseResultOf ws)) := by
  induction ps with
  | nil => rfl
  | cons p rest ih =>
    obtain ⟨r, hr⟩ := find_phrase_ne_exn ws p (h p (List.mem_cons_self _ _))
    have hrest := ih (fun q hq => h q (List.mem_cons_of_mem _ hq))
    simp only [find_all_phrases]
    rw [hr, hrest]
    simp only [List.map_cons]
    cases r <;> simp [phraseResultOf, hr]

/-- C8 (witness): a found and a not-found phrase produce per-phrase
results in order. -/
theorem find_all_phrases_per_phrase_witness :
    find_all_phrases demoWords ["deux".data, "non".data] =
      .ok ((["deux".data, "non".data]).map (phraseResultOf demoWords)) :=
  find_all_phrases_per_phrase demoWords ["deux".data, "non".data] (by decide)

end TextGrid
